import Mathlib

set_option maxHeartbeats 1000000

/-!
Verification of the async-dag task-graph orchestration library.

The repository ships a README example (src/examples/readme.py) building a
six-node DAG over `inc` and `add` tasks. The library core (graph builder,
execution engine, extraction) is modelled here from the specification:
values, argument bindings, nodes, a frozen graph, an execution engine that
resolves bindings in declared order and propagates failures as skips, and
typed extraction from a per-invocation result.
-/

/-- Modelled from the spec: values flowing through the DAG. The library is
generic over runtime values; the reference example uses ints, task-name
strings and float delays (represented as rationals). -/
inductive Val where
  | vint (n : Int)
  | vstr (s : String)
  | vrat (q : ℚ)
  deriving DecidableEq, Repr

/-- Modelled from the spec: an Argument Binding is a tagged value feeding a
Node — a fixed constant, a reference to another Node identity, or a
reference to the run's late-bound parameter. -/
inductive Binding where
  | constant (v : Val)
  | nodeRef (id : Nat)
  | parameterRef
  deriving DecidableEq, Repr

/-- Modelled from the spec: a Node is a callable plus an ordered list of
Argument Bindings, with a monotonically assigned identity. The callable is
an opaque computation that returns a value or fails. -/
structure Node where
  id : Nat
  callable : List Val → Except String Val
  bindings : List Binding

/-- Modelled from the spec: the frozen, immutable graph — an identity plus
the ordered sequence of Nodes (node identity equals its position). -/
structure Graph where
  graphId : Nat
  nodes : List Node

/-- Modelled from the spec: a node handle records its owning graph identity
and the node identity; used for extraction. -/
structure NodeHandle where
  graphId : Nat
  nodeId : Nat
  deriving DecidableEq, Repr

/-- Modelled from the spec: per-node outcome of one invocation. -/
inductive Outcome where
  | pending
  | computed (v : Val)
  | failed (e : String)
  | skipped (cause : Nat)
  deriving DecidableEq, Repr

/-- Modelled from the spec: the per-invocation outcome store keyed by node
identity, tagged with the identity of the graph that produced it. -/
structure ExecutionResult where
  graphId : Nat
  outcomes : List Outcome
  deriving DecidableEq, Repr

def dfltNode : Node := ⟨0, fun _ => Except.error "unreachable", []⟩

/-- Modelled from the spec: resolve one binding against the invocation
parameter and the outcomes of earlier nodes. A Constant yields its captured
value, a ParameterRef the invocation parameter, and a NodeRef the referenced
node's computed value; a failed or skipped referenced node blocks the
binding, reporting the identity of the originating failure. -/
def resolveBinding (param : Val) (outcomes : List Outcome) : Binding → Except Nat Val
  | .constant v => .ok v
  | .parameterRef => .ok param
  | .nodeRef j =>
    match outcomes.getD j .pending with
    | .computed v => .ok v
    | .failed _ => .error j
    | .skipped c => .error c
    | .pending => .error j

/-- Resolve a binding list in declared order; the first blocked binding
aborts resolution with the originating failure's identity. -/
def resolveBindings (param : Val) (outcomes : List Outcome) : List Binding → Except Nat (List Val)
  | [] => .ok []
  | b :: bs =>
    match resolveBinding param outcomes b with
    | .error c => .error c
    | .ok v =>
      match resolveBindings param outcomes bs with
      | .error c => .error c
      | .ok vs => .ok (v :: vs)

/-- Modelled from the spec: run one node — if every binding resolves, invoke
the callable once on the resolved arguments; otherwise the node is never
launched and is skipped with the originating failure as cause. -/
def runNode (param : Val) (outcomes : List Outcome) (n : Node) : Outcome :=
  match resolveBindings param outcomes n.bindings with
  | .error c => .skipped c
  | .ok args =>
    match n.callable args with
    | .ok v => .computed v
    | .error e => .failed e

/-- Modelled from the spec: outcomes of the first `k` nodes, produced in
dependency order (every NodeRef names a smaller identity, so processing in
identity order respects readiness). -/
def outs (g : Graph) (param : Val) : Nat → List Outcome
  | 0 => []
  | k + 1 => outs g param k ++ [runNode param (outs g param k) (g.nodes.getD k dfltNode)]

/-- Modelled from the spec: `invoke(graph, parameter)` evaluates every node
of the graph and returns a fresh ExecutionResult. -/
def invoke (g : Graph) (param : Val) : ExecutionResult :=
  ⟨g.graphId, outs g param g.nodes.length⟩

/-- The outcome of node `i` in an invocation of `g` with `param`. -/
def nodeOutcome (g : Graph) (param : Val) (i : Nat) : Outcome :=
  (outs g param (i + 1)).getD i .pending

/-- Modelled from the spec: the InvocationError surfaced by `invoke` names
the originating failed node identities. -/
def invocationErrors (g : Graph) (param : Val) : List Nat :=
  (List.range g.nodes.length).filter fun i =>
    match nodeOutcome g param i with
    | .failed _ => true
    | _ => false

/-- Modelled from the spec: `extract(handle, result)` requires the handle's
owning graph identity to match the result's; then returns a Computed value,
re-raises a failure, and reports the upstream cause for a Skipped node. -/
def extract_result (h : NodeHandle) (r : ExecutionResult) : Except String Val :=
  if h.graphId = r.graphId then
    match r.outcomes.getD h.nodeId .pending with
    | .computed v => .ok v
    | .failed e => .error e
    | .skipped c => .error ("ExtractionError: skipped due to failure of node " ++ toString c)
    | .pending => .error "ExtractionError: node is pending"
  else .error "ExtractionError: result was produced by a different graph"

/-- Modelled from the spec: the transient graph builder — allocates node
identities monotonically and is frozen at scope exit. -/
structure Builder where
  graphId : Nat
  nodes : List Node
  frozen : Bool

def initBuilder (gid : Nat) : Builder := ⟨gid, [], false⟩

/-- A binding is legal for the node under construction when any NodeRef
names an already-existing (hence strictly smaller) identity. -/
def bindingOk (len : Nat) : Binding → Bool
  | .nodeRef j => j < len
  | _ => true

/-- Modelled from the spec: `add_node` fails on a frozen builder, validates
every NodeRef at this call, assigns the next monotonically increasing
identity and returns the new node's handle. -/
def Builder.add_node (b : Builder) (callable : List Val → Except String Val)
    (bds : List Binding) : Except String (Builder × NodeHandle) :=
  if b.frozen then .error "ConstructionError: builder is frozen"
  else if bds.all (bindingOk b.nodes.length) then
    .ok ({ b with nodes := b.nodes ++ [⟨b.nodes.length, callable, bds⟩] },
         ⟨b.graphId, b.nodes.length⟩)
  else .error "ConstructionError: binding references a node that does not exist"

/-- Modelled from the spec: freezing marks the builder immutable and yields
the immutable Graph with the accumulated nodes. -/
def Builder.freeze (b : Builder) : Builder × Graph :=
  ({ b with frozen := true }, ⟨b.graphId, b.nodes⟩)

/-- Modelled from the spec: the construction scope (`with build_dag(...)`)
runs a body against a fresh builder and freezes the builder on every exit
path, whether the body finished normally or reported a failure. -/
def runScope (gid : Nat) (body : Builder → Builder × Except String Unit) :
    (Builder × Graph) × Except String Unit :=
  let br := body (initBuilder gid)
  (br.1.freeze, br.2)

/-- Well-formedness of one node at position `i`: its identity is `i` and
every NodeRef in its bindings names a strictly smaller identity. -/
def nodeWfB (i : Nat) (n : Node) : Bool :=
  (n.id == i) && n.bindings.all fun bd =>
    match bd with
    | .nodeRef j => j < i
    | _ => true

/-- Well-formedness of a node list starting at identity `i`. -/
def wfFrom (i : Nat) : List Node → Bool
  | [] => true
  | n :: ns => nodeWfB i n && wfFrom (i + 1) ns

def Graph.wfB (g : Graph) : Bool := wfFrom 0 g.nodes

def Builder.wfBuilder (b : Builder) : Bool := wfFrom 0 b.nodes

/-- Direct dependency: node `i` references node `j` through a NodeRef. -/
def depEdge (g : Graph) (i j : Nat) : Prop :=
  i < g.nodes.length ∧ Binding.nodeRef j ∈ (g.nodes.getD i dfltNode).bindings

/-! The reference graph from src/examples/readme.py. -/

/-- The readme's `inc_task`: returns `n + 1`; the name and delay arguments
only drive logging and sleeping. -/
def inc_task : List Val → Except String Val
  | [.vint n, .vstr _, .vrat _] => .ok (.vint (n + 1))
  | _ => .error "TypeError"

/-- The readme's `add_task`: returns `a + b`. -/
def add_task : List Val → Except String Val
  | [.vint a, .vint b, .vstr _, .vrat _] => .ok (.vint (a + b))
  | _ => .error "TypeError"

/-- The readme DAG: identities 0 fast_task_a, 1 slow_task_b, 2 slow_task_a,
3 fast_task_b, 4 fast_task_c, 5 end_task. -/
def refGraph : Graph :=
  ⟨0,
   [⟨0, inc_task, [.parameterRef, .constant (.vstr "fast_task_a"), .constant (.vrat (1 / 10))]⟩,
    ⟨1, inc_task, [.nodeRef 0, .constant (.vstr "slow_task_b"), .constant (.vrat 1)]⟩,
    ⟨2, inc_task, [.parameterRef, .constant (.vstr "slow_task_a"), .constant (.vrat (1 / 2))]⟩,
    ⟨3, inc_task, [.parameterRef, .constant (.vstr "fast_task_b"), .constant (.vrat (1 / 5))]⟩,
    ⟨4, add_task, [.nodeRef 2, .nodeRef 3, .constant (.vstr "fast_task_c"), .constant (.vrat (1 / 10))]⟩,
    ⟨5, add_task, [.nodeRef 4, .nodeRef 1, .constant (.vstr "end_task"), .constant (.vrat (1 / 10))]⟩]⟩

def fastTaskA : NodeHandle := ⟨0, 0⟩
def slowTaskB : NodeHandle := ⟨0, 1⟩
def slowTaskA : NodeHandle := ⟨0, 2⟩
def fastTaskB : NodeHandle := ⟨0, 3⟩
def fastTaskC : NodeHandle := ⟨0, 4⟩
def endTask : NodeHandle := ⟨0, 5⟩

/-- A computation that always fails, for the failure scenario in which
slow_task_a's computation fails. -/
def failing_task : List Val → Except String Val := fun _ => .error "boom"

/-- The readme DAG with slow_task_a's computation replaced by a failing
one. -/
def refGraphFail : Graph :=
  ⟨0,
   [⟨0, inc_task, [.parameterRef, .constant (.vstr "fast_task_a"), .constant (.vrat (1 / 10))]⟩,
    ⟨1, inc_task, [.nodeRef 0, .constant (.vstr "slow_task_b"), .constant (.vrat 1)]⟩,
    ⟨2, failing_task, [.parameterRef, .constant (.vstr "slow_task_a"), .constant (.vrat (1 / 2))]⟩,
    ⟨3, inc_task, [.parameterRef, .constant (.vstr "fast_task_b"), .constant (.vrat (1 / 5))]⟩,
    ⟨4, add_task, [.nodeRef 2, .nodeRef 3, .constant (.vstr "fast_task_c"), .constant (.vrat (1 / 10))]⟩,
    ⟨5, add_task, [.nodeRef 4, .nodeRef 1, .constant (.vstr "end_task"), .constant (.vrat (1 / 10))]⟩]⟩

/-! Instrumented call log: which callables run, and with which arguments. -/

/-- An outcome counts as launched when the callable was actually invoked. -/
def isLaunch : Outcome → Bool
  | .computed _ => true
  | .failed _ => true
  | _ => false

/-- The callable invocations performed for one node: none when a binding is
blocked, exactly one otherwise. -/
def nodeCalls (param : Val) (outcomes : List Outcome) (n : Node) : List (Nat × List Val) :=
  match resolveBindings param outcomes n.bindings with
  | .error _ => []
  | .ok args => [(n.id, args)]

/-- The call log of the first `k` nodes of an invocation. -/
def callsUpTo (g : Graph) (p : Val) : Nat → List (Nat × List Val)
  | 0 => []
  | k + 1 => callsUpTo g p k ++ nodeCalls p (outs g p k) (g.nodes.getD k dfltNode)

/-- The full call log of one invocation. -/
def invokeCalls (g : Graph) (p : Val) : List (Nat × List Val) :=
  callsUpTo g p g.nodes.length

/-- How many times node `i`'s callable ran during one invocation. -/
def countCalls (g : Graph) (p : Val) (i : Nat) : Nat :=
  (invokeCalls g p).countP fun e => e.1 == i

/-! Timed model: maximally parallel scheduling and the critical path. -/

/-- Modelled from the spec: the latest finish time among the NodeRef
dependencies of a binding list; Constant and ParameterRef bindings are
immediately satisfied and contribute nothing. -/
def depMax (fs : List ℚ) : List Binding → ℚ
  | [] => 0
  | .nodeRef j :: bs => max (fs.getD j 0) (depMax fs bs)
  | .constant _ :: bs => depMax fs bs
  | .parameterRef :: bs => depMax fs bs

/-- Modelled from the spec: finish times of the first `k` nodes under the
maximally parallel schedule — a node is launched the instant its last
NodeRef dependency finishes, then runs for its duration. -/
def finishes (g : Graph) (dur : Nat → ℚ) : Nat → List ℚ
  | 0 => []
  | k + 1 => finishes g dur k ++
      [depMax (finishes g dur k) (g.nodes.getD k dfltNode).bindings + dur k]

/-- The finish time of node `i` under the maximally parallel schedule. -/
def finishTime (g : Graph) (dur : Nat → ℚ) (i : Nat) : ℚ :=
  (finishes g dur (i + 1)).getD i 0

/-- Modelled from the spec: the wall-clock duration of one invocation under
the maximally parallel schedule. -/
def makespan (g : Graph) (dur : Nat → ℚ) : ℚ :=
  (finishes g dur g.nodes.length).foldr max 0

/-- A dependency chain: a nonempty list of node identities in which each
node directly references the next through a NodeRef binding. -/
def chainB (g : Graph) : List Nat → Bool
  | [] => false
  | [i] => i < g.nodes.length
  | i :: j :: rest =>
      decide (i < g.nodes.length) &&
      (g.nodes.getD i dfltNode).bindings.any (fun bd => bd == .nodeRef j) &&
      chainB g (j :: rest)

/-- The total duration along a chain of dependent nodes. -/
def chainWeight (dur : Nat → ℚ) (c : List Nat) : ℚ := (c.map dur).sum

/-- The sum of all node durations (what a fully sequential run would cost). -/
def totalDur (g : Graph) (dur : Nat → ℚ) : ℚ :=
  ((List.range g.nodes.length).map dur).sum

/-- The node durations of the readme example: 0.1, 1, 0.5, 0.2, 0.1, 0.1
seconds for identities 0..5. -/
def refDur : Nat → ℚ := fun i => [1/10, 1, 1/2, 1/5, 1/10, 1/10].getD i 0

def dfltResult : ExecutionResult := ⟨0, []⟩

def dfltHandle : NodeHandle := ⟨0, 0⟩

/-- A sequence of invocations of the same frozen graph, one per parameter. -/
def invokeMany (g : Graph) (ps : List Val) : List ExecutionResult := ps.map (invoke g)

/-- A sequence of extractions against one ExecutionResult. -/
def extractSeq (hs : List NodeHandle) (r : ExecutionResult) : List (Except String Val) :=
  hs.map fun h => extract_result h r

/-! Basic facts about the execution engine. -/

theorem outs_length (g : Graph) (p : Val) : ∀ k, (outs g p k).length = k
  | 0 => rfl
  | k + 1 => by simp [outs, outs_length g p k]

theorem outs_getD_stable (g : Graph) (p : Val) {j : Nat} :
    ∀ {k}, j < k → (outs g p k).getD j .pending = nodeOutcome g p j := by
  intro k
  induction k with
  | zero => intro h; exact absurd h (Nat.not_lt_zero j)
  | succ k ih =>
    intro h
    rcases Nat.lt_succ_iff_lt_or_eq.mp h with h2 | h2
    · rw [outs, List.getD_append _ _ _ _ (by rw [outs_length]; exact h2)]
      exact ih h2
    · subst h2; rfl

theorem nodeOutcome_eq (g : Graph) (p : Val) (i : Nat) :
    nodeOutcome g p i = runNode p (outs g p i) (g.nodes.getD i dfltNode) := by
  show (outs g p (i + 1)).getD i .pending = _
  rw [outs, List.getD_append_right _ _ _ _ (by rw [outs_length])]
  simp [outs_length]

theorem invoke_outcomes_getD (g : Graph) (p : Val) {i : Nat} (h : i < g.nodes.length) :
    (invoke g p).outcomes.getD i .pending = nodeOutcome g p i :=
  outs_getD_stable g p h

theorem runNode_ne_pending (p : Val) (outcomes : List Outcome) (n : Node) :
    runNode p outcomes n ≠ .pending := by
  unfold runNode
  cases h : resolveBindings p outcomes n.bindings with
  | error c => simp
  | ok args => cases h2 : n.callable args <;> simp [h2]

theorem nodeOutcome_ne_pending (g : Graph) (p : Val) (i : Nat) :
    nodeOutcome g p i ≠ .pending := by
  rw [nodeOutcome_eq]; exact runNode_ne_pending p _ _

/-! Well-formedness facts. -/

theorem wfFrom_getD : ∀ (ns : List Node) (i : Nat), wfFrom i ns = true →
    ∀ k, k < ns.length → nodeWfB (i + k) (ns.getD k dfltNode) = true := by
  intro ns
  induction ns with
  | nil => intro i _ k hk; simp at hk
  | cons n ns ih =>
    intro i hw k hk
    rw [wfFrom, Bool.and_eq_true] at hw
    cases k with
    | zero => simpa using hw.1
    | succ k =>
      have h := ih (i + 1) hw.2 k (by simpa using hk)
      have heq : i + 1 + k = i + (k + 1) := by omega
      rw [heq] at h
      simpa using h

theorem wfB_node (g : Graph) (hw : g.wfB = true) {i : Nat} (hi : i < g.nodes.length) :
    nodeWfB i (g.nodes.getD i dfltNode) = true := by
  have h := wfFrom_getD g.nodes 0 hw i hi
  simpa using h

theorem wfB_id (g : Graph) (hw : g.wfB = true) {i : Nat} (hi : i < g.nodes.length) :
    (g.nodes.getD i dfltNode).id = i := by
  have h := wfB_node g hw hi
  rw [nodeWfB, Bool.and_eq_true] at h
  simpa using h.1

theorem wfB_ref_lt (g : Graph) (hw : g.wfB = true) {i j : Nat} (hi : i < g.nodes.length)
    (hj : Binding.nodeRef j ∈ (g.nodes.getD i dfltNode).bindings) : j < i := by
  have h := wfB_node g hw hi
  rw [nodeWfB, Bool.and_eq_true] at h
  have h2 := List.all_eq_true.mp h.2 _ hj
  simpa using h2

theorem depEdge_lt (g : Graph) (hw : g.wfB = true) {i j : Nat} (h : depEdge g i j) : j < i :=
  wfB_ref_lt g hw h.1 h.2

theorem depTrans_lt (g : Graph) (hw : g.wfB = true) {i j : Nat}
    (h : Relation.TransGen (depEdge g) i j) : j < i := by
  induction h with
  | single h => exact depEdge_lt g hw h
  | tail h1 h2 ih => exact Nat.lt_trans (depEdge_lt g hw h2) ih

theorem depTrans_src_lt (g : Graph) {i j : Nat}
    (h : Relation.TransGen (depEdge g) i j) : i < g.nodes.length := by
  induction h with
  | single h => exact h.1
  | tail h1 h2 ih => exact ih

/-! Failure containment: skipped nodes trace back to a failed node. -/

theorem resolveBindings_error_mem {param : Val} {outcomes : List Outcome} :
    ∀ {bs : List Binding} {c : Nat}, resolveBindings param outcomes bs = .error c →
      ∃ j, Binding.nodeRef j ∈ bs ∧ resolveBinding param outcomes (.nodeRef j) = .error c := by
  intro bs
  induction bs with
  | nil => intro c h; simp [resolveBindings] at h
  | cons b bs ih =>
    intro c h
    rw [resolveBindings] at h
    cases hb : resolveBinding param outcomes b with
    | error c2 =>
      rw [hb] at h
      simp only at h
      cases h
      cases b with
      | constant v => simp [resolveBinding] at hb
      | parameterRef => simp [resolveBinding] at hb
      | nodeRef j => exact ⟨j, List.mem_cons_self _ _, hb⟩
    | ok v =>
      rw [hb] at h
      simp only at h
      cases hr : resolveBindings param outcomes bs with
      | error c2 =>
        rw [hr] at h
        simp only at h
        cases h
        obtain ⟨j, hm, he⟩ := ih hr
        exact ⟨j, List.mem_cons_of_mem _ hm, he⟩
      | ok vs => rw [hr] at h; simp at h

theorem resolveBindings_blocked {param : Val} {outcomes : List Outcome} {j c0 : Nat}
    (hb : resolveBinding param outcomes (.nodeRef j) = .error c0) :
    ∀ {bs : List Binding}, Binding.nodeRef j ∈ bs →
      ∃ c, resolveBindings param outcomes bs = .error c := by
  intro bs
  induction bs with
  | nil => intro hm; cases hm
  | cons b bs ih =>
    intro hm
    rw [resolveBindings]
    cases List.mem_cons.mp hm with
    | inl h => subst h; rw [hb]; exact ⟨c0, rfl⟩
    | inr h =>
      cases hb2 : resolveBinding param outcomes b with
      | error c2 => exact ⟨c2, rfl⟩
      | ok v =>
        obtain ⟨c, hc⟩ := ih h
        rw [hc]
        exact ⟨c, rfl⟩

theorem skip_cause (g : Graph) (p : Val) (hw : g.wfB = true) :
    ∀ i, i < g.nodes.length → ∀ c, nodeOutcome g p i = .skipped c →
      c < g.nodes.length ∧ ∃ e, nodeOutcome g p c = .failed e := by
  intro i
  induction i using Nat.strong_induction_on with
  | _ i ih =>
    intro hi c hc
    rw [nodeOutcome_eq] at hc
    unfold runNode at hc
    cases hr : resolveBindings p (outs g p i) (g.nodes.getD i dfltNode).bindings with
    | ok args =>
      rw [hr] at hc
      simp only at hc
      cases h2 : (g.nodes.getD i dfltNode).callable args <;> rw [h2] at hc <;> simp at hc
    | error c2 =>
      rw [hr] at hc
      simp only at hc
      cases hc
      obtain ⟨j, hjm, hje⟩ := resolveBindings_error_mem hr
      have hj : j < i := wfB_ref_lt g hw hi hjm
      rw [resolveBinding, outs_getD_stable g p hj] at hje
      cases ho : nodeOutcome g p j with
      | pending => exact absurd ho (nodeOutcome_ne_pending g p j)
      | computed v => rw [ho] at hje; simp at hje
      | failed e =>
        rw [ho] at hje
        simp only at hje
        cases hje
        exact ⟨Nat.lt_trans hj hi, e, ho⟩
      | skipped c3 =>
        rw [ho] at hje
        simp only at hje
        cases hje
        exact ih j hj (Nat.lt_trans hj hi) _ ho

theorem blocked_edge (g : Graph) (p : Val) (hw : g.wfB = true) {i j : Nat}
    (he : depEdge g i j)
    (hb : (∃ e, nodeOutcome g p j = .failed e) ∨ (∃ c, nodeOutcome g p j = .skipped c)) :
    ∃ c, nodeOutcome g p i = .skipped c := by
  obtain ⟨hi, hm⟩ := he
  have hj : j < i := wfB_ref_lt g hw hi hm
  have hberr : ∃ c0, resolveBinding p (outs g p i) (.nodeRef j) = .error c0 := by
    rw [resolveBinding, outs_getD_stable g p hj]
    rcases hb with ⟨e, he2⟩ | ⟨c, hc2⟩
    · rw [he2]; exact ⟨j, rfl⟩
    · rw [hc2]; exact ⟨c, rfl⟩
  obtain ⟨c0, hc0⟩ := hberr
  obtain ⟨c, hc⟩ := resolveBindings_blocked hc0 hm
  rw [nodeOutcome_eq]
  unfold runNode
  rw [hc]
  exact ⟨c, rfl⟩

theorem failed_dep (g : Graph) (p : Val) (hw : g.wfB = true) {i j : Nat}
    (h : Relation.TransGen (depEdge g) i j)
    (hf : ∃ e, nodeOutcome g p j = .failed e) : ∃ c, nodeOutcome g p i = .skipped c := by
  induction h using Relation.TransGen.head_induction_on with
  | base he => exact blocked_edge g p hw he (Or.inl hf)
  | ih he htrans ihp => exact blocked_edge g p hw he (Or.inr ihp)

theorem runNode_skipped_of_error (p : Val) (outcomes : List Outcome) (n : Node) {c : Nat}
    (hr : resolveBindings p outcomes n.bindings = .error c) :
    runNode p outcomes n = .skipped c := by
  unfold runNode; rw [hr]

theorem isLaunch_runNode_of_ok (p : Val) (outcomes : List Outcome) (n : Node) {args : List Val}
    (hr : resolveBindings p outcomes n.bindings = .ok args) :
    isLaunch (runNode p outcomes n) = true := by
  unfold runNode
  rw [hr]
  cases h2 : n.callable args with
  | ok v => simp [isLaunch, h2]
  | error e => simp [isLaunch, h2]

theorem countP_callsUpTo (g : Graph) (p : Val) (hw : g.wfB = true) (i : Nat) :
    ∀ k, k ≤ g.nodes.length →
      (callsUpTo g p k).countP (fun e => e.1 == i) =
        if i < k ∧ isLaunch (nodeOutcome g p i) = true then 1 else 0 := by
  intro k
  induction k with
  | zero => intro _; simp [callsUpTo]
  | succ k ih =>
    intro hk
    have hklen : k < g.nodes.length := Nat.lt_of_succ_le hk
    rw [callsUpTo, List.countP_append, ih (Nat.le_of_succ_le hk)]
    have hid : (g.nodes.getD k dfltNode).id = k := wfB_id g hw hklen
    have hout : nodeOutcome g p k = runNode p (outs g p k) (g.nodes.getD k dfltNode) :=
      nodeOutcome_eq g p k
    unfold nodeCalls
    cases hr : resolveBindings p (outs g p k) (g.nodes.getD k dfltNode).bindings with
    | error c =>
      have hk_out : nodeOutcome g p k = .skipped c := by
        rw [hout]; exact runNode_skipped_of_error p _ _ hr
      by_cases hik : i < k
      · have h1 : i < k + 1 := Nat.lt_succ_of_lt hik
        simp [hik, h1]
      · by_cases hik2 : i = k
        · subst hik2
          simp [hk_out, isLaunch, Nat.lt_irrefl, Nat.lt_succ_self]
        · have h1 : ¬ i < k + 1 := by omega
          simp [hik, h1]
    | ok args =>
      have hk_out : isLaunch (nodeOutcome g p k) = true := by
        rw [hout]; exact isLaunch_runNode_of_ok p _ _ hr
      simp only [List.countP_cons, List.countP_nil, hid, Nat.zero_add]
      by_cases hik : i < k
      · have h1 : i < k + 1 := Nat.lt_succ_of_lt hik
        have h2 : (k == i) = false := by simp; omega
        simp [hik, h1, h2]
      · by_cases hik2 : i = k
        · subst hik2
          simp [hk_out, Nat.lt_irrefl, Nat.lt_succ_self]
        · have h1 : ¬ i < k + 1 := by omega
          have h2 : (k == i) = false := by simp; omega
          simp [hik, h1, h2]

theorem countCalls_eq (g : Graph) (p : Val) (hw : g.wfB = true) {i : Nat}
    (hi : i < g.nodes.length) :
    countCalls g p i = if isLaunch (nodeOutcome g p i) = true then 1 else 0 := by
  rw [countCalls, invokeCalls, countP_callsUpTo g p hw i g.nodes.length Nat.le.refl]
  simp [hi]

theorem all_computed_of_no_failed (g : Graph) (p : Val) (hw : g.wfB = true)
    (hnf : ∀ j e, j < g.nodes.length → nodeOutcome g p j ≠ .failed e)
    {i : Nat} (hi : i < g.nodes.length) : ∃ v, nodeOutcome g p i = .computed v := by
  cases ho : nodeOutcome g p i with
  | pending => exact absurd ho (nodeOutcome_ne_pending g p i)
  | computed v => exact ⟨v, rfl⟩
  | failed e => exact absurd ho (hnf i e hi)
  | skipped c =>
    obtain ⟨hc_lt, e, hce⟩ := skip_cause g p hw i hi c ho
    exact absurd hce (hnf c e hc_lt)

theorem fanout_same (g : Graph) (p : Val) {i : Nat} {v : Val}
    (hv : nodeOutcome g p i = .computed v) {k : Nat} (hk : i < k) :
    resolveBinding p (outs g p k) (.nodeRef i) = .ok v := by
  rw [resolveBinding, outs_getD_stable g p hk, hv]

/-! Builder facts: identity allocation, validation, freezing. -/

theorem wfFrom_append (n : Node) :
    ∀ (ns : List Node) (i : Nat),
      wfFrom i (ns ++ [n]) = (wfFrom i ns && nodeWfB (i + ns.length) n) := by
  intro ns
  induction ns with
  | nil => intro i; simp [wfFrom]
  | cons m ns ih =>
    intro i
    rw [List.cons_append, wfFrom, wfFrom, ih (i + 1), Bool.and_assoc]
    have heq : i + 1 + ns.length = i + (m :: ns).length := by simp; omega
    rw [heq]

theorem add_node_ok_iff (b : Builder) (callable : List Val → Except String Val)
    (bds : List Binding) {b2 : Builder} {h : NodeHandle}
    (hok : b.add_node callable bds = .ok (b2, h)) :
    b.frozen = false ∧ bds.all (bindingOk b.nodes.length) = true ∧
      b2 = { b with nodes := b.nodes ++ [⟨b.nodes.length, callable, bds⟩] } ∧
      h = ⟨b.graphId, b.nodes.length⟩ := by
  rw [Builder.add_node] at hok
  by_cases hf : b.frozen
  · rw [if_pos hf] at hok; cases hok
  · rw [if_neg hf] at hok
    by_cases hb : bds.all (bindingOk b.nodes.length) = true
    · rw [if_pos hb] at hok
      cases hok
      exact ⟨Bool.eq_false_iff.mpr hf, hb, rfl, rfl⟩
    · rw [if_neg hb] at hok; cases hok

theorem add_node_preserves_wf (b : Builder) (callable : List Val → Except String Val)
    (bds : List Binding) {b2 : Builder} {h : NodeHandle}
    (hok : b.add_node callable bds = .ok (b2, h)) (hw : b.wfBuilder = true) :
    b2.wfBuilder = true := by
  obtain ⟨-, hb, hb2, -⟩ := add_node_ok_iff b callable bds hok
  subst hb2
  show wfFrom 0 (b.nodes ++ [⟨b.nodes.length, callable, bds⟩]) = true
  rw [wfFrom_append, Bool.and_eq_true]
  refine ⟨hw, ?_⟩
  rw [nodeWfB, Bool.and_eq_true]
  constructor
  · simp
  · rw [List.all_eq_true] at hb ⊢
    intro bd hbd
    have := hb bd hbd
    cases bd with
    | nodeRef j => simpa [bindingOk] using this
    | constant v => simp
    | parameterRef => simp

theorem add_node_frozen (b : Builder) (hf : b.frozen = true)
    (callable : List Val → Except String Val) (bds : List Binding) :
    b.add_node callable bds = .error "ConstructionError: builder is frozen" := by
  rw [Builder.add_node, if_pos hf]

theorem runScope_frozen (gid : Nat) (body : Builder → Builder × Except String Unit) :
    ((runScope gid body).1.1).frozen = true := rfl

theorem finishes_length (g : Graph) (dur : Nat → ℚ) : ∀ k, (finishes g dur k).length = k
  | 0 => rfl
  | k + 1 => by simp [finishes, finishes_length g dur k]

theorem finishes_getD_stable (g : Graph) (dur : Nat → ℚ) {j : Nat} :
    ∀ {k}, j < k → (finishes g dur k).getD j 0 = finishTime g dur j := by
  intro k
  induction k with
  | zero => intro h; exact absurd h (Nat.not_lt_zero j)
  | succ k ih =>
    intro h
    rcases Nat.lt_succ_iff_lt_or_eq.mp h with h2 | h2
    · rw [finishes, List.getD_append _ _ _ _ (by rw [finishes_length]; exact h2)]
      exact ih h2
    · subst h2; rfl

theorem finishTime_eq (g : Graph) (dur : Nat → ℚ) (i : Nat) :
    finishTime g dur i =
      depMax (finishes g dur i) (g.nodes.getD i dfltNode).bindings + dur i := by
  show (finishes g dur (i + 1)).getD i 0 = _
  rw [finishes, List.getD_append_right _ _ _ _ (by rw [finishes_length])]
  simp [finishes_length]

theorem depMax_nonneg (fs : List ℚ) : ∀ bs, 0 ≤ depMax fs bs := by
  intro bs
  induction bs with
  | nil => exact le_refl 0
  | cons b bs ih =>
    cases b with
    | nodeRef j => exact le_trans ih (le_max_right _ _)
    | constant v => exact ih
    | parameterRef => exact ih

theorem finishTime_nonneg (g : Graph) (dur : Nat → ℚ) (hd : ∀ i, 0 ≤ dur i) (i : Nat) :
    0 ≤ finishTime g dur i := by
  rw [finishTime_eq]
  exact add_nonneg (depMax_nonneg _ _) (hd i)

theorem depMax_ge (fs : List ℚ) {j : Nat} :
    ∀ {bs : List Binding}, Binding.nodeRef j ∈ bs → fs.getD j 0 ≤ depMax fs bs := by
  intro bs
  induction bs with
  | nil => intro hm; cases hm
  | cons b bs ih =>
    intro hm
    cases List.mem_cons.mp hm with
    | inl h => subst h; exact le_max_left _ _
    | inr h =>
      cases b with
      | nodeRef j2 => exact le_trans (ih h) (le_max_right _ _)
      | constant v => exact ih h
      | parameterRef => exact ih h

theorem mem_le_foldr_max {x : ℚ} : ∀ {l : List ℚ}, x ∈ l → x ≤ l.foldr max 0 := by
  intro l
  induction l with
  | nil => intro hm; cases hm
  | cons y l ih =>
    intro hm
    cases List.mem_cons.mp hm with
    | inl h => subst h; exact le_max_left _ _
    | inr h => exact le_trans (ih h) (le_max_right _ _)

theorem foldr_max_choice : ∀ (l : List ℚ), l.foldr max 0 = 0 ∨ l.foldr max 0 ∈ l := by
  intro l
  induction l with
  | nil => exact Or.inl rfl
  | cons y l ih =>
    rw [List.foldr_cons]
    rcases max_choice y (l.foldr max 0) with h | h
    · right
      rw [h]
      exact List.mem_cons_self _ _
    · rcases ih with h2 | h2
      · exact Or.inl (h.trans h2)
      · right
        rw [h]
        exact List.mem_cons_of_mem _ h2

theorem finish_le_makespan (g : Graph) (dur : Nat → ℚ) {i : Nat} (hi : i < g.nodes.length) :
    finishTime g dur i ≤ makespan g dur := by
  rw [makespan, ← finishes_getD_stable g dur hi]
  apply mem_le_foldr_max
  rw [List.getD_eq_getElem _ _ (by rw [finishes_length]; exact hi)]
  exact List.getElem_mem _

theorem chainB_head_lt (g : Graph) {i : Nat} {rest : List Nat}
    (h : chainB g (i :: rest) = true) : i < g.nodes.length := by
  cases rest with
  | nil => simpa [chainB] using h
  | cons j rest2 =>
    rw [chainB, Bool.and_eq_true, Bool.and_eq_true] at h
    simpa using h.1.1

theorem chain_le_finish (g : Graph) (dur : Nat → ℚ) (hw : g.wfB = true) :
    ∀ (rest : List Nat) (i : Nat), chainB g (i :: rest) = true →
      chainWeight dur (i :: rest) ≤ finishTime g dur i := by
  intro rest
  induction rest with
  | nil =>
    intro i _
    show (dur i + 0 : ℚ) ≤ finishTime g dur i
    rw [add_zero, finishTime_eq]
    have := depMax_nonneg (finishes g dur i) (g.nodes.getD i dfltNode).bindings
    linarith
  | cons j rest2 ih =>
    intro i hc
    rw [chainB, Bool.and_eq_true, Bool.and_eq_true] at hc
    obtain ⟨⟨hi, hany⟩, hc2⟩ := hc
    have hi2 : i < g.nodes.length := by simpa using hi
    have hmem : Binding.nodeRef j ∈ (g.nodes.getD i dfltNode).bindings := by
      obtain ⟨bd, hbd, hbeq⟩ := List.any_eq_true.mp hany
      have : bd = Binding.nodeRef j := by simpa using hbeq
      rw [this] at hbd
      exact hbd
    have hj : j < i := wfB_ref_lt g hw hi2 hmem
    have h1 : chainWeight dur (j :: rest2) ≤ finishTime g dur j := ih j hc2
    have h2 : finishTime g dur j ≤ depMax (finishes g dur i) (g.nodes.getD i dfltNode).bindings := by
      rw [← finishes_getD_stable g dur hj]
      exact depMax_ge _ hmem
    have h3 : finishTime g dur i =
        depMax (finishes g dur i) (g.nodes.getD i dfltNode).bindings + dur i :=
      finishTime_eq g dur i
    show dur i + chainWeight dur (j :: rest2) ≤ finishTime g dur i
    rw [h3]
    linarith

theorem chain_le_makespan (g : Graph) (dur : Nat → ℚ) (hw : g.wfB = true)
    {c : List Nat} (hc : chainB g c = true) :
    chainWeight dur c ≤ makespan g dur := by
  cases c with
  | nil => simp [chainB] at hc
  | cons i rest =>
    exact le_trans (chain_le_finish g dur hw rest i hc)
      (finish_le_makespan g dur (chainB_head_lt g hc))

theorem depMax_cases (fs : List ℚ) :
    ∀ (bs : List Binding), depMax fs bs = 0 ∨
      ∃ j, Binding.nodeRef j ∈ bs ∧ depMax fs bs = fs.getD j 0 := by
  intro bs
  induction bs with
  | nil => exact Or.inl rfl
  | cons b bs ih =>
    cases b with
    | constant v =>
      rcases ih with h | ⟨j, hm, he⟩
      · exact Or.inl h
      · exact Or.inr ⟨j, List.mem_cons_of_mem _ hm, he⟩
    | parameterRef =>
      rcases ih with h | ⟨j, hm, he⟩
      · exact Or.inl h
      · exact Or.inr ⟨j, List.mem_cons_of_mem _ hm, he⟩
    | nodeRef j0 =>
      show (max (fs.getD j0 0) (depMax fs bs) = 0) ∨ _
      rcases max_choice (fs.getD j0 0) (depMax fs bs) with h | h
      · exact Or.inr ⟨j0, List.mem_cons_self _ _, h⟩
      · rcases ih with h2 | ⟨j, hm, he⟩
        · exact Or.inl (h.trans h2)
        · exact Or.inr ⟨j, List.mem_cons_of_mem _ hm, h.trans he⟩

theorem exists_chain (g : Graph) (dur : Nat → ℚ) (hw : g.wfB = true) :
    ∀ i, i < g.nodes.length → ∃ rest, chainB g (i :: rest) = true ∧
      chainWeight dur (i :: rest) = finishTime g dur i := by
  intro i
  induction i using Nat.strong_induction_on with
  | _ i ih =>
    intro hi
    rcases depMax_cases (finishes g dur i) (g.nodes.getD i dfltNode).bindings with h | ⟨j, hm, he⟩
    · refine ⟨[], ?_, ?_⟩
      · simpa [chainB] using hi
      · show dur i + 0 = finishTime g dur i
        rw [finishTime_eq, h, zero_add, add_zero]
    · have hj : j < i := wfB_ref_lt g hw hi hm
      have hgd : (finishes g dur i).getD j 0 = finishTime g dur j :=
        finishes_getD_stable g dur hj
      obtain ⟨rest2, hc2, hwgt⟩ := ih j hj (Nat.lt_trans hj hi)
      refine ⟨j :: rest2, ?_, ?_⟩
      · rw [chainB, Bool.and_eq_true, Bool.and_eq_true]
        refine ⟨⟨by simpa using hi, ?_⟩, hc2⟩
        exact List.any_eq_true.mpr ⟨Binding.nodeRef j, hm, by simp⟩
      · show dur i + chainWeight dur (j :: rest2) = finishTime g dur i
        rw [hwgt, finishTime_eq g dur i, he, hgd]
        ring

theorem makespan_achieved (g : Graph) (dur : Nat → ℚ) (hw : g.wfB = true)
    (hd : ∀ i, 0 ≤ dur i) (hlen : 0 < g.nodes.length) :
    ∃ c, chainB g c = true ∧ chainWeight dur c = makespan g dur := by
  rcases foldr_max_choice (finishes g dur g.nodes.length) with h | h
  · have h0 : makespan g dur = 0 := h
    have h1 : finishTime g dur 0 ≤ makespan g dur := finish_le_makespan g dur hlen
    have h2 : 0 ≤ finishTime g dur 0 := finishTime_nonneg g dur hd 0
    have h3 : finishTime g dur 0 = makespan g dur := by linarith [h1, h2, h0.ge]
    obtain ⟨rest, hc, hwgt⟩ := exists_chain g dur hw 0 hlen
    exact ⟨0 :: rest, hc, hwgt.trans h3⟩
  · obtain ⟨idx, hidx, hval⟩ := List.getElem_of_mem h
    rw [finishes_length] at hidx
    have hgd : (finishes g dur g.nodes.length).getD idx 0 = finishTime g dur idx :=
      finishes_getD_stable g dur hidx
    have hval2 : finishTime g dur idx = makespan g dur := by
      rw [← hgd, List.getD_eq_getElem _ _ (by rw [finishes_length]; exact hidx)]
      exact hval
    obtain ⟨rest, hc, hwgt⟩ := exists_chain g dur hw idx hidx
    exact ⟨idx :: rest, hc, hwgt.trans hval2⟩

/-- C1: invoking the readme graph with parameter 0 computes fast_task_a = 1
and end_task = 4 (and 2, 1, 1, 2 for the remaining nodes); each node's
bindings resolve in declared order — Constant to the captured value,
ParameterRef to 0, NodeRef to the referenced node's computed value. -/
theorem c1_reference_execution :
    extract_result fastTaskA (invoke refGraph (.vint 0)) = .ok (.vint 1)
    ∧ extract_result endTask (invoke refGraph (.vint 0)) = .ok (.vint 4)
    ∧ (invoke refGraph (.vint 0)).outcomes =
        [.computed (.vint 1), .computed (.vint 2), .computed (.vint 1),
         .computed (.vint 1), .computed (.vint 2), .computed (.vint 4)]
    ∧ resolveBindings (.vint 0) (outs refGraph (.vint 0) 0)
        (refGraph.nodes.getD 0 dfltNode).bindings =
        .ok [.vint 0, .vstr "fast_task_a", .vrat (1 / 10)]
    ∧ resolveBindings (.vint 0) (outs refGraph (.vint 0) 5)
        (refGraph.nodes.getD 5 dfltNode).bindings =
        .ok [.vint 2, .vint 2, .vstr "end_task", .vrat (1 / 10)] :=
  ⟨rfl, rfl, rfl, rfl, rfl⟩

/-- C2: in every well-formed graph a failing node gets Failed, every
transitive dependent is skipped (never launched, with a failing node as
recorded cause), and unrelated nodes are unaffected; in the readme graph
with slow_task_a failing, fast_task_c and end_task are Skipped with cause
slow_task_a, fast_task_a and slow_task_b are Computed, and the invocation
error names slow_task_a. -/
theorem c2_failure_containment :
    (∀ (g : Graph) (p : Val), g.wfB = true →
      (∀ i c, i < g.nodes.length → nodeOutcome g p i = .skipped c →
        c < g.nodes.length ∧ (∃ e, nodeOutcome g p c = .failed e) ∧ countCalls g p i = 0)
      ∧ (∀ i j e, Relation.TransGen (depEdge g) i j → nodeOutcome g p j = .failed e →
          ∃ c e2, nodeOutcome g p i = .skipped c ∧ nodeOutcome g p c = .failed e2))
    ∧ nodeOutcome refGraphFail (.vint 0) 2 = .failed "boom"
    ∧ nodeOutcome refGraphFail (.vint 0) 4 = .skipped 2
    ∧ nodeOutcome refGraphFail (.vint 0) 5 = .skipped 2
    ∧ nodeOutcome refGraphFail (.vint 0) 0 = .computed (.vint 1)
    ∧ nodeOutcome refGraphFail (.vint 0) 1 = .computed (.vint 2)
    ∧ invocationErrors refGraphFail (.vint 0) = [2] := by
  refine ⟨?_, rfl, rfl, rfl, rfl, rfl, by decide⟩
  intro g p hw
  constructor
  · intro i c hi hc
    obtain ⟨hclt, e, he⟩ := skip_cause g p hw i hi c hc
    refine ⟨hclt, ⟨e, he⟩, ?_⟩
    rw [countCalls_eq g p hw hi, hc]
    simp [isLaunch]
  · intro i j e htrans hfail
    have hi : i < g.nodes.length := depTrans_src_lt g htrans
    obtain ⟨c, hc⟩ := failed_dep g p hw htrans ⟨e, hfail⟩
    obtain ⟨-, e2, he2⟩ := skip_cause g p hw i hi c hc
    exact ⟨c, e2, hc, he2⟩

/-- Witness for C2 at the readme failure scenario. -/
theorem c2_failure_containment_witness :
    (∃ e, nodeOutcome refGraphFail (.vint 0) 2 = Outcome.failed e)
    ∧ countCalls refGraphFail (.vint 0) 4 = 0 := by
  have h := ((c2_failure_containment.1 refGraphFail (.vint 0) (by decide)).1 4 2
    (by decide) (by rfl))
  exact ⟨h.2.1, h.2.2⟩

/-- C3: per invocation, each node's callable runs at most once, exactly
once when the node is launched (and always, absent failures), and every
dependent referencing a computed node observes that same stored value. -/
theorem c3_exactly_once :
    ∀ (g : Graph) (p : Val), g.wfB = true → ∀ i, i < g.nodes.length →
      countCalls g p i ≤ 1
      ∧ (countCalls g p i = 1 ↔ isLaunch (nodeOutcome g p i) = true)
      ∧ ((∀ j e, j < g.nodes.length → nodeOutcome g p j ≠ .failed e) → countCalls g p i = 1)
      ∧ (∀ v, nodeOutcome g p i = .computed v →
          ∀ k, i < k → resolveBinding p (outs g p k) (.nodeRef i) = .ok v) := by
  intro g p hw i hi
  have hcount := countCalls_eq g p hw hi
  refine ⟨?_, ?_, ?_, ?_⟩
  · rw [hcount]
    by_cases h : isLaunch (nodeOutcome g p i) = true <;> simp [h]
  · rw [hcount]
    by_cases h : isLaunch (nodeOutcome g p i) = true <;> simp [h]
  · intro hnf
    obtain ⟨v, hv⟩ := all_computed_of_no_failed g p hw hnf hi
    rw [hcount, hv]
    simp [isLaunch]
  · intro v hv k hk
    exact fanout_same g p hv hk

/-- Witness for C3 at the readme graph: node 2 runs exactly once and node 4
observes its computed value. -/
theorem c3_exactly_once_witness :
    countCalls refGraph (Val.vint 0) 2 = 1
    ∧ resolveBinding (Val.vint 0) (outs refGraph (Val.vint 0) 4) (Binding.nodeRef 2) =
        Except.ok (Val.vint 1) := by
  have h := c3_exactly_once refGraph (Val.vint 0) (by decide) 2 (by decide)
  exact ⟨h.2.1.mpr (by rfl), h.2.2.2 (Val.vint 1) (by rfl) 4 (by decide)⟩

/-- C4: the builder assigns monotonically increasing identities, validates
at add_node time that every NodeRef names a strictly smaller identity, and
the frozen graph is acyclic with no separate cycle-detection pass. -/
theorem c4_acyclic_by_construction :
    (∀ (b : Builder) (callable : List Val → Except String Val) (bds : List Binding)
        (b2 : Builder) (h : NodeHandle), b.add_node callable bds = .ok (b2, h) →
      h.nodeId = b.nodes.length
      ∧ b2.nodes.length = b.nodes.length + 1
      ∧ (∀ j, Binding.nodeRef j ∈ bds → j < h.nodeId)
      ∧ (b.wfBuilder = true → b2.wfBuilder = true))
    ∧ (∀ b : Builder, b.wfBuilder = true → ((b.freeze).2).wfB = true)
    ∧ (∀ g : Graph, g.wfB = true → ∀ i, ¬ Relation.TransGen (depEdge g) i i) := by
  refine ⟨?_, ?_, ?_⟩
  · intro b callable bds b2 h hok
    obtain ⟨hf, hall, hb2, hh⟩ := add_node_ok_iff b callable bds hok
    refine ⟨by rw [hh], by rw [hb2]; simp, ?_, add_node_preserves_wf b callable bds hok⟩
    intro j hj
    have := List.all_eq_true.mp hall _ hj
    rw [hh]
    simpa [bindingOk] using this
  · intro b hw
    exact hw
  · intro g hw i hcycle
    exact absurd (depTrans_lt g hw hcycle) (Nat.lt_irrefl i)

/-- Witness for C4: a concrete add_node call and acyclicity of the readme
graph. -/
theorem c4_acyclic_by_construction_witness :
    (NodeHandle.mk 0 0).nodeId = (initBuilder 0).nodes.length
    ∧ ¬ Relation.TransGen (depEdge refGraph) 5 5 := by
  have hok : (initBuilder 0).add_node inc_task [Binding.parameterRef] =
      Except.ok (⟨0, [⟨0, inc_task, [Binding.parameterRef]⟩], false⟩, ⟨0, 0⟩) := rfl
  exact ⟨(c4_acyclic_by_construction.1 _ _ _ _ _ hok).1,
    c4_acyclic_by_construction.2.2 refGraph (by decide) 5⟩

/-- C5: extract fails on a graph identity mismatch; otherwise it returns the
Computed value, re-raises a Failed node's error, and names the upstream
cause for a Skipped node. -/
theorem c5_extract_semantics (h : NodeHandle) (r : ExecutionResult) :
    (h.graphId ≠ r.graphId →
      extract_result h r = .error "ExtractionError: result was produced by a different graph")
    ∧ (h.graphId = r.graphId → ∀ v, r.outcomes.getD h.nodeId .pending = .computed v →
        extract_result h r = .ok v)
    ∧ (h.graphId = r.graphId → ∀ e, r.outcomes.getD h.nodeId .pending = .failed e →
        extract_result h r = .error e)
    ∧ (h.graphId = r.graphId → ∀ c, r.outcomes.getD h.nodeId .pending = .skipped c →
        extract_result h r =
          .error ("ExtractionError: skipped due to failure of node " ++ toString c)) := by
  refine ⟨?_, ?_, ?_, ?_⟩
  · intro hne
    rw [extract_result, if_neg hne]
  · intro heq v hv
    rw [extract_result, if_pos heq, hv]
  · intro heq e he
    rw [extract_result, if_pos heq, he]
  · intro heq c hc
    rw [extract_result, if_pos heq, hc]

/-- Witness for C5: all four extraction cases at concrete results. -/
theorem c5_extract_semantics_witness :
    extract_result ⟨1, 0⟩ (invoke refGraph (.vint 0)) =
      .error "ExtractionError: result was produced by a different graph"
    ∧ extract_result fastTaskA (invoke refGraph (.vint 0)) = .ok (.vint 1)
    ∧ extract_result slowTaskA (invoke refGraphFail (.vint 0)) = .error "boom"
    ∧ extract_result fastTaskC (invoke refGraphFail (.vint 0)) =
        .error ("ExtractionError: skipped due to failure of node " ++ toString 2) := by
  refine ⟨?_, ?_, ?_, ?_⟩
  · exact (c5_extract_semantics ⟨1, 0⟩ (invoke refGraph (.vint 0))).1 (by decide)
  · exact (c5_extract_semantics fastTaskA (invoke refGraph (.vint 0))).2.1 rfl (.vint 1) rfl
  · exact (c5_extract_semantics slowTaskA (invoke refGraphFail (.vint 0))).2.2.1 rfl "boom" rfl
  · exact (c5_extract_semantics fastTaskC (invoke refGraphFail (.vint 0))).2.2.2 rfl 2 rfl

/-- C6: after invoke returns, every node of the graph has a terminal
outcome — Computed, Failed or Skipped — Pending is never observable, and
the result covers all nodes of the graph (none is left unevaluated). -/
theorem c6_terminal_outcomes :
    ∀ (g : Graph) (p : Val),
      (invoke g p).outcomes.length = g.nodes.length
      ∧ ∀ i, i < g.nodes.length →
          (invoke g p).outcomes.getD i .pending ≠ .pending
          ∧ ((∃ v, (invoke g p).outcomes.getD i .pending = .computed v)
             ∨ (∃ e, (invoke g p).outcomes.getD i .pending = .failed e)
             ∨ (∃ c, (invoke g p).outcomes.getD i .pending = .skipped c)) := by
  intro g p
  refine ⟨outs_length g p g.nodes.length, ?_⟩
  intro i hi
  rw [invoke_outcomes_getD g p hi]
  refine ⟨nodeOutcome_ne_pending g p i, ?_⟩
  cases ho : nodeOutcome g p i with
  | pending => exact absurd ho (nodeOutcome_ne_pending g p i)
  | computed v => exact Or.inl ⟨v, rfl⟩
  | failed e => exact Or.inr (Or.inl ⟨e, rfl⟩)
  | skipped c => exact Or.inr (Or.inr ⟨c, rfl⟩)

/-- Witness for C6 at the readme graph. -/
theorem c6_terminal_outcomes_witness :
    (invoke refGraph (.vint 0)).outcomes.length = refGraph.nodes.length
    ∧ (invoke refGraph (.vint 0)).outcomes.getD 0 .pending ≠ .pending := by
  have h := c6_terminal_outcomes refGraph (.vint 0)
  exact ⟨h.1, (h.2 0 (by decide)).1⟩

/-- C7: repeated invocations are independent — the i-th result of a
sequence of invocations is exactly the invocation of the graph at the i-th
parameter alone — and a Constant binding resolves to the captured value on
every invocation, never re-evaluated. -/
theorem c7_invocation_independence :
    (∀ (g : Graph) (ps : List Val) (i : Nat), i < ps.length →
      (invokeMany g ps).getD i dfltResult = invoke g (ps.getD i (Val.vint 0)))
    ∧ (∀ (p : Val) (outcomes : List Outcome) (v : Val),
        resolveBinding p outcomes (.constant v) = .ok v)
    ∧ extract_result fastTaskA (invoke refGraph (.vint 10)) = .ok (.vint 11)
    ∧ extract_result endTask (invoke refGraph (.vint 10)) = .ok (.vint 34)
    ∧ extract_result endTask (invoke refGraph (.vint 0)) = .ok (.vint 4) := by
  refine ⟨?_, ?_, by rfl, by rfl, by rfl⟩
  · intro g ps i hi
    rw [invokeMany, List.getD_eq_getElem _ _ (by simpa using hi),
      List.getD_eq_getElem _ _ hi, List.getElem_map]
  · intro p outcomes v
    rfl

/-- Witness for C7: two invocations in sequence, the second depending only
on its own parameter. -/
theorem c7_invocation_independence_witness :
    (invokeMany refGraph [Val.vint 0, Val.vint 10]).getD 1 dfltResult =
      invoke refGraph (Val.vint 10) :=
  c7_invocation_independence.1 refGraph [Val.vint 0, Val.vint 10] 1 (by decide)

/-- C8: under the maximally parallel schedule of the spec, every dependency
chain costs at most the makespan and, for nonnegative durations, some chain
achieves it — the wall-clock time of an invocation is the critical path,
not the sum of durations; in the readme graph the makespan is 1.2 seconds
(the chain end_task ← slow_task_b ← fast_task_a) while the durations sum
to 2 seconds. -/
theorem c8_critical_path :
    (∀ (g : Graph) (dur : Nat → ℚ), g.wfB = true →
      (∀ c, chainB g c = true → chainWeight dur c ≤ makespan g dur)
      ∧ ((∀ i, 0 ≤ dur i) → 0 < g.nodes.length →
          ∃ c, chainB g c = true ∧ chainWeight dur c = makespan g dur))
    ∧ makespan refGraph refDur = 6 / 5
    ∧ chainB refGraph [5, 1, 0] = true
    ∧ chainWeight refDur [5, 1, 0] = 6 / 5
    ∧ totalDur refGraph refDur = 2 := by
  refine ⟨?_, ?_, by decide, ?_, ?_⟩
  · intro g dur hw
    exact ⟨fun c hc => chain_le_makespan g dur hw hc,
      fun hd hlen => makespan_achieved g dur hw hd hlen⟩
  · simp [makespan, finishes, refGraph, refDur, depMax, dfltNode]
    norm_num
  · simp [chainWeight, refDur]
    norm_num
  · simp [totalDur, refGraph, refDur, List.range_succ]
    norm_num

/-- Witness for C8: the critical-path bound applied to the readme chain. -/
theorem c8_critical_path_witness :
    chainWeight refDur [5, 1, 0] ≤ makespan refGraph refDur :=
  (c8_critical_path.1 refGraph refDur (by decide)).1 [5, 1, 0] (by decide)

/-- C9: the construction scope freezes the builder on every exit path —
normal or failing — and add_node on a frozen builder always fails with a
construction error; no mutation of a frozen builder succeeds. -/
theorem c9_freeze_on_exit :
    (∀ (gid : Nat) (body : Builder → Builder × Except String Unit),
      ((runScope gid body).1.1).frozen = true
      ∧ ∀ (callable : List Val → Except String Val) (bds : List Binding),
          ((runScope gid body).1.1).add_node callable bds =
            .error "ConstructionError: builder is frozen")
    ∧ (∀ b : Builder, b.frozen = true → ∀ (callable : List Val → Except String Val)
        (bds : List Binding),
        b.add_node callable bds = .error "ConstructionError: builder is frozen") := by
  refine ⟨?_, ?_⟩
  · intro gid body
    refine ⟨runScope_frozen gid body, ?_⟩
    intro callable bds
    exact add_node_frozen _ (runScope_frozen gid body) callable bds
  · intro b hf callable bds
    exact add_node_frozen b hf callable bds

/-- Witness for C9: a scope whose body reports a failure still leaves the
builder frozen, and adding a node to it fails. -/
theorem c9_freeze_on_exit_witness :
    ((runScope 0 (fun b => (b, Except.error "failure inside scope"))).1.1).frozen = true
    ∧ ((runScope 0 (fun b => (b, Except.error "failure inside scope"))).1.1).add_node
        inc_task [] = .error "ConstructionError: builder is frozen" := by
  have h := c9_freeze_on_exit.1 0 (fun b => (b, Except.error "failure inside scope"))
  exact ⟨h.1, h.2 inc_task []⟩

/-- C10: extraction is read-only and repeatable — each extraction in any
sequence of extractions against one ExecutionResult depends only on its own
handle and the unchanged result, and repeated or intermediate-node
extractions on the readme result each succeed with that node's own value. -/
theorem c10_extraction_pure :
    (∀ (hs : List NodeHandle) (r : ExecutionResult) (i : Nat), i < hs.length →
      (extractSeq hs r).getD i (.error "") = extract_result (hs.getD i dfltHandle) r)
    ∧ extractSeq [fastTaskA, endTask, fastTaskA, slowTaskB, fastTaskC, fastTaskA]
        (invoke refGraph (.vint 0)) =
        [.ok (.vint 1), .ok (.vint 4), .ok (.vint 1), .ok (.vint 2),
         .ok (.vint 2), .ok (.vint 1)] := by
  refine ⟨?_, rfl⟩
  intro hs r i hi
  rw [extractSeq, List.getD_eq_getElem _ _ (by simpa using hi),
    List.getD_eq_getElem _ _ hi, List.getElem_map]

/-- Witness for C10: the third extraction of the sequence repeats the first
and returns the same value. -/
theorem c10_extraction_pure_witness :
    (extractSeq [fastTaskA, endTask, fastTaskA] (invoke refGraph (.vint 0))).getD 2
        (.error "") =
      extract_result ([fastTaskA, endTask, fastTaskA].getD 2 dfltHandle)
        (invoke refGraph (.vint 0)) :=
  c10_extraction_pure.1 [fastTaskA, endTask, fastTaskA] (invoke refGraph (.vint 0)) 2
    (by decide)
